import Mathlib

/-!
A shallow embedding of `anatomizer2.py` (class `AgentAnatomy`).

The remote services (Ensembl REST, UniProt, APPRIS), the XML parser and the
filesystem are external collaborators; they enter the embedding as explicit
function parameters and explicit state:

* decoded Ensembl payloads become lists of small structures (`Xref`, `CDS`,
  `TXref`, `PXref`, `Isoform`) mirroring the JSON fields the code reads;
* a remote fetch that can fail becomes a `... → Except Err ...` parameter
  (mirroring `_fetch_ensembl`, whose `raise_for_status()` raises on any
  non-success status);
* the per-accession UniProt XML, of which `_get_uniprotdupl` only ever uses
  `uniprotxml.find(".//dbReference[@id=ENST]/molecule")`, becomes a function
  `auth : String → String → Option Molecule` (accession, transcript id ↦
  the molecule element, if any);
* the working-directory file cache of `_fetch_uniprotxml` becomes an explicit
  association list from file names to file contents (`CacheState`).

Python dictionaries with optional keys become structures with `Option` fields;
a read of a key that may be missing is modelled by matching on the `Option`
(raising `Err.keyError` where the Python read is unguarded), and attribute
access on a possibly-`None` value by `Err.attrError`.  `exit()` calls become
`Except.error` with a dedicated error constructor.
-/

namespace Anatomizer

/-- The ways a run of the Python code can abort or raise. -/
inductive Err where
  /-- Python `__init__`: not exactly one ENSG match; the code prints and calls `exit()`. -/
  | ambiguousOrUnknown : Err
  /-- Python `_fetch_ensembl`: `r.raise_for_status()` raises `HTTPError` on a non-ok status. -/
  | remoteFetch : Nat → Err
  /-- An unguarded dictionary read of a missing key, e.g. `ptn[UniProt_accession]`. -/
  | keyError : Err
  /-- Python `molecule.get(id)` when `uniprotxml.find(...)` returned `None`. -/
  | attrError : Err
  /-- Python `_get_canon`: `exit()` when there is not exactly one principal isoform. -/
  | noUniqueCanonical : Err
deriving DecidableEq, Repr

/-- One entry of the decoded `/xrefs/symbol/...` payload; `__init__` reads `entry[id]`. -/
structure Xref where
  id : String
deriving DecidableEq, Repr

/-- One coding-sequence feature from `/overlap/id/...?feature=cds`;
`_get_transcripts` reads `cds['strand']`, `cds['Parent']`, `cds['protein_id']`. -/
structure CDS where
  strand : Int
  Parent : String
  protein_id : String
deriving DecidableEq, Repr

/-- One transcript cross-reference; `_get_hgnctranscr` reads `dbname`, `primary_id`. -/
structure TXref where
  dbname : String
  primary_id : String
deriving DecidableEq, Repr

/-- One protein cross-reference; `_get_uniprotids` reads `db_display_name`, `primary_id`. -/
structure PXref where
  db_display_name : String
  primary_id : String
deriving DecidableEq, Repr

/-- One entry of the APPRIS payload.  `_get_canon` reads `isoform[annotation-key]`
and `isoform[transcript_id]` inside a `try`/`except: pass`, so both keys may
be missing; `annot` stands for the JSON key `"annotation"`. -/
structure Isoform where
  annot : Option String
  transcript_id : Option String
deriving DecidableEq, Repr

/-- The `<molecule>` element found inside a `<dbReference>` of a UniProt entry;
`_get_uniprotdupl` reads its `id` attribute via `molecule.get(id)`, which
yields `None` when the attribute is absent. -/
structure Molecule where
  id : Option String
deriving DecidableEq, Repr

/-- One entry of `self.ptnlist`: the `OrderedDict` built by `_get_transcripts`
and enriched in place by the later steps.  The two keys present from creation
are `Ensembl_transcr` and `Ensembl_protein`; the others are added later and so
are optional. -/
structure Rec where
  Ensembl_transcr : String
  Ensembl_protein : String
  Transcript_name : Option String
  UniProt_accession : Option String
  length : Option Nat
  Canon : Option String
deriving DecidableEq, Repr

/-- A freshly created record, as built by `_get_transcripts`: only the
transcript and protein identifiers are present. -/
def mkRec (t p : String) : Rec :=
  { Ensembl_transcr := t, Ensembl_protein := p, Transcript_name := none,
    UniProt_accession := none, length := none, Canon := none }

/-! ### `__init__` — identity resolution -/

/-- Python `__init__`: the list `genes` of xref ids whose first four characters are
`ENSG`, in payload order. -/
def ensgMatches (xrefs : List Xref) : List String :=
  xrefs.filterMap fun entry =>
    if entry.id.take 4 = "ENSG" then some entry.id else none

/-- Python `__init__`: succeed with `genes[0]` iff `len(genes) == 1`; otherwise the
code prints a message and calls `exit()`. -/
def resolveGene (xrefs : List Xref) : Except Err String :=
  match ensgMatches xrefs with
  | [g] => Except.ok g
  | _ => Except.error Err.ambiguousOrUnknown

/-! ### `_get_transcripts` — enumeration, strand filter, deduplication -/

/-- Python `_get_transcripts`: the pre-deduplication list `deflist`, keeping only the
features on the gene's strand, in payload order. -/
def defRecs (strand : Int) (cdslist : List CDS) : List Rec :=
  cdslist.filterMap fun cds =>
    if cds.strand = strand then some (mkRec cds.Parent cds.protein_id) else none

/-- Python `_get_transcripts`: the deduplication loop, appending each item to
`self.ptnlist` only when it is not already present (`if item not in self.ptnlist`). -/
def dedupLoop (acc : List Rec) : List Rec → List Rec
  | [] => acc
  | item :: rest =>
    if item ∈ acc then dedupLoop acc rest else dedupLoop (acc ++ [item]) rest

/-- Python `_get_transcripts`: build `deflist` from the overlap payload, then
deduplicate it into `self.ptnlist`. -/
def get_transcripts (strand : Int) (cdslist : List CDS) : List Rec :=
  dedupLoop [] (defRecs strand cdslist)

/-- Spec-side definition, for the refinement comparison of claim C2: the spec
says "deduplicate by exact pair equality, preserving first-seen order".  (At
this stage every record carries only the pair, so record equality coincides
with pair equality.) -/
def firstSeenDedup : List Rec → List Rec
  | [] => []
  | p :: rest => p :: firstSeenDedup (rest.filter fun q => q ≠ p)
termination_by l => l.length
decreasing_by
  simp only [List.length_cons]
  exact Nat.lt_succ_of_le (List.length_filter_le _ _)

/-! ### `_get_hgnctranscr` and `_get_uniprotids` — per-record enrichment

Both steps call `_fetch_ensembl` once per record with no surrounding
`try`/`except`, so a raised `HTTPError` propagates out of the loop; the fetch
is a parameter returning `Except Err _`. -/

/-- The inner loop of `_get_hgnctranscr` over the xref list of one record: every
xref with `dbname == HGNC_trans_name` overwrites `Transcript_name`, so the
last match wins. -/
def applyTXrefs (p : Rec) (txrefs : List TXref) : Rec :=
  txrefs.foldl
    (fun r txref =>
      if txref.dbname = "HGNC_trans_name" then
        { r with Transcript_name := some txref.primary_id }
      else r)
    p

/-- Python `_get_hgnctranscr`: for each record in order, fetch the xrefs of its
transcript id and attach the HGNC transcript name when tagged. -/
def get_hgnctranscr (fetch : String → Except Err (List TXref)) :
    List Rec → Except Err (List Rec)
  | [] => Except.ok []
  | p :: rest => do
    let txrefs ← fetch p.Ensembl_transcr
    let rest' ← get_hgnctranscr fetch rest
    Except.ok (applyTXrefs p txrefs :: rest')

/-- The inner loop of `_get_uniprotids` over the xref list of one record: every
xref whose `db_display_name` starts with `UniProtKB` overwrites
`UniProt_accession`, so the last match wins. -/
def applyPXrefs (p : Rec) (pxrefs : List PXref) : Rec :=
  pxrefs.foldl
    (fun r pxref =>
      if pxref.db_display_name.take 9 = "UniProtKB" then
        { r with UniProt_accession := some pxref.primary_id }
      else r)
    p

/-- Python `_get_uniprotids`: for each record in order, fetch the xrefs of its
protein id and attach the UniProt accession when tagged. -/
def get_uniprotids (fetch : String → Except Err (List PXref)) :
    List Rec → Except Err (List Rec)
  | [] => Except.ok []
  | p :: rest => do
    let pxrefs ← fetch p.Ensembl_protein
    let rest' ← get_uniprotids fetch rest
    Except.ok (applyPXrefs p pxrefs :: rest')

/-! ### `_fetch_uniprotxml` — the per-accession file cache -/

/-- The working directory of `AgentAnatomy` as a list of (file name, file
contents) pairs, most recently written first. -/
structure CacheState where
  files : List (String × String)
deriving DecidableEq, Repr

/-- Python `os.listdir` plus `open(...).read()`: the contents of a file of the
working directory, if present. -/
def lookupFile (st : CacheState) (fname : String) : Option String :=
  st.files.lookup fname

/-- The file name `the format uniprot<ac>.xml` used by `_fetch_uniprotxml`. -/
def cacheFileName (uniprotac : String) : String :=
  "uniprot" ++ uniprotac ++ ".xml"

/-- Python `_fetch_uniprotxml`.  `parseXml` stands for the namespace-stripping
`re.sub` followed by `ET.fromstring` (applied in both branches); `prettify`
for `xml.dom.minidom.parseString` followed by `toprettyxml`; `remote` for
`requests.get('http://www.uniprot.org/uniprot/%s.xml').text`.  The third
component of the result records whether the remote service was contacted. -/
def fetch_uniprotxml (α : Type) (parseXml : String → α) (prettify : String → String)
    (remote : String → String) (st : CacheState) (uniprotac : String) :
    α × CacheState × Bool :=
  match lookupFile st (cacheFileName uniprotac) with
  | some contents => (parseXml contents, st, false)
  | none =>
    let uniprot := prettify (remote uniprotac)
    (parseXml uniprot,
     { files := (cacheFileName uniprotac, uniprot) :: st.files },
     true)

/-! ### `_get_uniprotdupl` — reconciliation of duplicate accessions -/

/-- The first loop of `_get_uniprotdupl`: scan `self.ptnlist`, reading
`ptn[UniProt_accession]` unguardedly (a record without that key raises
`KeyError`), and collect the accessions seen more than once.  Python stores
them in a `set` and iterates `list(duplicates)` in unspecified hash order; the
embedding fixes first-detection order, which also gives a duplicate-free list. -/
def dupScan : List Rec → List String → List String → Except Err (List String)
  | [], _seen, dups => Except.ok dups
  | ptn :: rest, seen, dups =>
    match ptn.UniProt_accession with
    | none => Except.error Err.keyError
    | some ac =>
      if ac ∈ seen then
        dupScan rest seen (if ac ∈ dups then dups else dups ++ [ac])
      else
        dupScan rest (seen ++ [ac]) dups

/-- The inner loop of `_get_uniprotdupl` for one duplicate accession `unip`:
every record whose current accession equals `unip` has its accession replaced
by `molecule.get(id)`, where `molecule` is the sub-entry of the UniProt
entry keyed by the transcript id of the record; when `find` returns `None` the
attribute access raises (`Err.attrError`).  The index loop checks the record
at index `i` after rewriting indices below `i`, which never changes record
`i` itself, so recursion over the list is equivalent. -/
def rewriteOne (auth : String → String → Option Molecule) (unip : String) :
    List Rec → Except Err (List Rec)
  | [] => Except.ok []
  | p :: rest =>
    if p.UniProt_accession = some unip then
      match auth unip p.Ensembl_transcr with
      | none => Except.error Err.attrError
      | some molecule => do
        let rest' ← rewriteOne auth unip rest
        Except.ok ({ p with UniProt_accession := molecule.id } :: rest')
    else do
      let rest' ← rewriteOne auth unip rest
      Except.ok (p :: rest')

/-- The outer loop of `_get_uniprotdupl` over the duplicate accessions. -/
def processDups (auth : String → String → Option Molecule) :
    List String → List Rec → Except Err (List Rec)
  | [], l => Except.ok l
  | unip :: ds, l => do
    let l' ← rewriteOne auth unip l
    processDups auth ds l'

/-- Python `_get_uniprotdupl`: collect the duplicated accessions, then rewrite the
records carrying each of them using the authoritative UniProt entry
(`auth acc enst` is the `<molecule>` element found at
`.//dbReference[@id=enst]/molecule` in the entry fetched for `acc`). -/
def get_uniprotdupl (auth : String → String → Option Molecule) (l : List Rec) :
    Except Err (List Rec) := do
  let dups ← dupScan l [] []
  processDups auth dups l

/-! ### `_get_canon` — canonical transcript resolution and flagging -/

/-- Python `_get_canon`: the list `canonlist` of transcript ids of isoforms whose
`annotation` is `"Principal Isoform"`.  A missing `annotation` key raises at
the comparison and a missing `transcript_id` key raises at the append; both
are swallowed by `except: pass`, so such entries contribute nothing. -/
def canonList (appris : List Isoform) : List String :=
  appris.filterMap fun iso =>
    match iso.annot, iso.transcript_id with
    | some a, some t => if a = "Principal Isoform" then some t else none
    | _, _ => none

/-- Python `_get_canon`, resolution half: `canonset = set(canonlist)`; succeed with
`canonlist[0]` iff `len(canonset) == 1`, otherwise print and `exit()`.  (The
`[]` branch under a dedup length of one is unreachable.) -/
def canonResolve (appris : List Isoform) : Except Err String :=
  if (canonList appris).dedup.length = 1 then
    match canonList appris with
    | t :: _ => Except.ok t
    | [] => Except.error Err.noUniqueCanonical
  else
    Except.error Err.noUniqueCanonical

/-- Python `_get_canon`, flagging half: set `Canon = "Yes"` on every record whose
transcript id equals the canonical one. -/
def flagCanon (canon : String) (l : List Rec) : List Rec :=
  l.map fun p =>
    if p.Ensembl_transcr = canon then { p with Canon := some "Yes" } else p

/-- Python `_get_canon`: resolve the canonical transcript, then flag the records. -/
def get_canon (appris : List Isoform) (l : List Rec) :
    Except Err (String × List Rec) := do
  let canon ← canonResolve appris
  Except.ok (canon, flagCanon canon l)

/-! ### Decidable equality of results, for concrete evaluations -/

instance {ε α : Type} [DecidableEq ε] [DecidableEq α] : DecidableEq (Except ε α) :=
  fun x y =>
    match x, y with
    | .error e, .error e' =>
      if h : e = e' then .isTrue (by rw [h])
      else .isFalse (by intro hc; injection hc; exact h (by assumption))
    | .error _, .ok _ => .isFalse (by intro hc; exact Except.noConfusion hc)
    | .ok _, .error _ => .isFalse (by intro hc; exact Except.noConfusion hc)
    | .ok a, .ok b =>
      if h : a = b then .isTrue (by rw [h])
      else .isFalse (by intro hc; injection hc; exact h (by assumption))

/-! ### Claim C5 — identity resolution -/

/-- Claim C5: identity resolution.  For every decoded xref payload, `__init__`
succeeds storing `g` as the gene identifier exactly when the entries whose
identifier starts with `ENSG` are exactly `[g]`; with zero or two or more such
matches it aborts with `AmbiguousOrUnknownIdentifier` and no aggregation
proceeds. -/
theorem claim5_identity_resolution (xrefs : List Xref) (g : String) :
    (resolveGene xrefs = Except.ok g ↔ ensgMatches xrefs = [g]) ∧
    (resolveGene xrefs = Except.error Err.ambiguousOrUnknown ↔
      (ensgMatches xrefs).length ≠ 1) := by
  unfold resolveGene
  match h : ensgMatches xrefs with
  | [] => simp
  | [x] => simp
  | x :: y :: rest => simp

/-! ### Claim C8 — canonical transcript resolution -/

/-- Claim C8: canonical resolution.  `_get_canon` succeeds selecting `t`
exactly when the set of transcript identifiers marked `Principal Isoform`
is the singleton `{t}` (here: the deduplicated list is `[t]`); it aborts with
`NoUniqueCanonicalTranscript` exactly when that set has zero or at least two
elements. -/
theorem claim8_canonical_resolution (appris : List Isoform) (t : String) :
    (canonResolve appris = Except.ok t ↔ (canonList appris).dedup = [t]) ∧
    (canonResolve appris = Except.error Err.noUniqueCanonical ↔
      (canonList appris).dedup.length ≠ 1) := by
  unfold canonResolve
  match hc : canonList appris with
  | [] => simp
  | u :: rest =>
    by_cases h : (u :: rest).dedup.length = 1
    · rw [if_pos h]
      obtain ⟨x, hx⟩ := List.length_eq_one.mp h
      have hu : u ∈ (u :: rest).dedup := List.mem_dedup.mpr (List.mem_cons_self u rest)
      rw [hx] at hu
      have hux : u = x := by simpa using hu
      constructor
      · constructor
        · intro hok
          have hut : u = t := by simpa using hok
          rw [hx, ← hut, hux]
        · intro hd
          have hxt : x = t := by
            rw [hx] at hd
            simpa using hd
          simp [hux, hxt]
      · constructor
        · intro hok; exact absurd hok (by simp)
        · intro hne; exact absurd h hne
    · rw [if_neg h]
      constructor
      · constructor
        · intro hok; exact absurd hok (by simp)
        · intro hd; rw [hd] at h; simp at h
      · simp [h]

/-! ### Claim C9 — cache round-trip -/

/-- Claim C9: cache round-trip.  After one call of `_fetch_uniprotxml` for an
accession (which, on a cache miss, writes the per-accession file), a second
call with the same accession returns an equal parsed record, leaves the
working directory unchanged, and issues no remote fetch. -/
theorem claim9_cache_round_trip (α : Type) (parseXml : String → α)
    (prettify remote : String → String) (st : CacheState) (uniprotac : String) :
    (fetch_uniprotxml α parseXml prettify remote
        (fetch_uniprotxml α parseXml prettify remote st uniprotac).2.1 uniprotac).1 =
      (fetch_uniprotxml α parseXml prettify remote st uniprotac).1 ∧
    (fetch_uniprotxml α parseXml prettify remote
        (fetch_uniprotxml α parseXml prettify remote st uniprotac).2.1 uniprotac).2.1 =
      (fetch_uniprotxml α parseXml prettify remote st uniprotac).2.1 ∧
    (fetch_uniprotxml α parseXml prettify remote
        (fetch_uniprotxml α parseXml prettify remote st uniprotac).2.1 uniprotac).2.2 =
      false := by
  cases h : lookupFile st (cacheFileName uniprotac) with
  | some contents => simp [fetch_uniprotxml, h]
  | none =>
    have hlook :
        lookupFile
          { files := (cacheFileName uniprotac, prettify (remote uniprotac)) :: st.files }
          (cacheFileName uniprotac) = some (prettify (remote uniprotac)) := by
      simp [lookupFile, List.lookup]
    simp [fetch_uniprotxml, h, hlook]

/-! ### Claim C7 — strand filtering -/

/-- Lemma: `defRecs` ignores the features whose strand differs from the gene's. -/
theorem defRecs_filter (strand : Int) (cdslist : List CDS) :
    defRecs strand (cdslist.filter fun cds => cds.strand = strand) =
      defRecs strand cdslist := by
  unfold defRecs
  induction cdslist with
  | nil => rfl
  | cons c rest ih =>
    by_cases h : c.strand = strand <;>
      simp [List.filter_cons, h, List.filterMap_cons, ih]

/-- Claim C7: strand filtering.  The record set built by `_get_transcripts`
from the overlap payload is the one built from only the same-strand features:
a coding-sequence feature whose strand differs from the gene's strand never
contributes a record. -/
theorem claim7_strand_filtering (strand : Int) (cdslist : List CDS) :
    get_transcripts strand cdslist =
      get_transcripts strand (cdslist.filter fun cds => cds.strand = strand) := by
  unfold get_transcripts
  rw [defRecs_filter]

/-! ### Claim C10 — reconciliation reads the accession unconditionally -/

/-- The duplicate scan of `_get_uniprotdupl` raises `KeyError` whenever some
record lacks the `UniProt_accession` key. -/
theorem dupScan_keyError :
    ∀ (l : List Rec) (seen dups : List String),
      (∃ p ∈ l, p.UniProt_accession = none) →
      dupScan l seen dups = Except.error Err.keyError := by
  intro l
  induction l with
  | nil => intro seen dups h; simp at h
  | cons p rest ih =>
    intro seen dups h
    match hacc : p.UniProt_accession with
    | none => simp [dupScan, hacc]
    | some ac =>
      obtain ⟨q, hq, hqn⟩ := h
      rcases List.mem_cons.mp hq with hqp | hqr
      · rw [hqp] at hqn; rw [hqn] at hacc; exact absurd hacc (by simp)
      · have hrest : ∃ p ∈ rest, p.UniProt_accession = none := ⟨q, hqr, hqn⟩
        simp only [dupScan, hacc]
        by_cases hs : ac ∈ seen
        · rw [if_pos hs]; exact ih _ _ hrest
        · rw [if_neg hs]; exact ih _ _ hrest

/-- Claim C10: implicit precondition of reconciliation.  `_get_uniprotdupl`
reads `ptn[UniProt_accession]` unconditionally during its duplicate scan,
so for any record set in which some record lacks that field the operation
raises `KeyError` (instead of skipping that record). -/
theorem claim10_missing_accession_keyerror
    (auth : String → String → Option Molecule) (l : List Rec)
    (h : ∃ p ∈ l, p.UniProt_accession = none) :
    get_uniprotdupl auth l = Except.error Err.keyError := by
  unfold get_uniprotdupl
  rw [dupScan_keyError l [] [] h]
  rfl

/-- A record set for the C10 witness: the first record got an accession from
`_get_uniprotids`, the second did not (a best-effort miss). -/
def recs10 : List Rec :=
  [{ mkRec "ENST1" "ENSP1" with UniProt_accession := some "P11111" },
   mkRec "ENST2" "ENSP2"]

/-- An authority for the C10 witness (never consulted). -/
def auth10 : String → String → Option Molecule := fun _ _ => none

/-- Witness for claim C10 at a concrete record set with a missing accession. -/
theorem claim10_witness :
    (∃ p ∈ recs10, p.UniProt_accession = none) ∧
    get_uniprotdupl auth10 recs10 = Except.error Err.keyError := by
  refine ⟨?_, claim10_missing_accession_keyerror auth10 recs10 ?_⟩ <;>
    exact ⟨mkRec "ENST2" "ENSP2", by decide, rfl⟩

/-! ### Claim C3 — error handling of the per-record enrichment steps

`_fetch_ensembl` calls `r.raise_for_status()` on any non-success status, which
raises `requests.HTTPError`; neither `_get_hgnctranscr` nor `_get_uniprotids`
wraps its fetches in `try`/`except`, so the exception propagates and the run
aborts. -/

/-- A record set for the C3 counterexample. -/
def recs3 : List Rec := [mkRec "ENST3" "ENSP3"]

/-- A transcript-xref fetch that fails with HTTP status 500 for every id. -/
def failFetchT : String → Except Err (List TXref) :=
  fun _ => Except.error (Err.remoteFetch 500)

/-- A protein-xref fetch that fails with HTTP status 500 for every id. -/
def failFetchP : String → Except Err (List PXref) :=
  fun _ => Except.error (Err.remoteFetch 500)

/-- Counterexample to claim C3 as stated: when the remote fetch fails with a
non-success status, `_get_hgnctranscr` does not swallow the error and continue
— it returns the error, so the run aborts (`_get_uniprotids` behaves the same
way, see the amended theorem).  The predicted outcome of the claim, a completed run
with the optional field absent, is impossible since the result is not `ok`. -/
theorem claim3_counterexample :
    get_hgnctranscr failFetchT recs3 = Except.error (Err.remoteFetch 500) ∧
    get_uniprotids failFetchP recs3 = Except.error (Err.remoteFetch 500) := by
  exact ⟨rfl, rfl⟩

/-- Claim C3 amended: if the remote fetch issued by the transcript-naming step
or the protein-accession-lookup step fails for some record, the step does not
swallow the error — it returns a `RemoteFetchError` and the run aborts (the
optional fields stay absent only because the step never completes). -/
theorem claim3_amended_error_propagates
    (fetchT : String → Except Err (List TXref))
    (fetchP : String → Except Err (List PXref)) (l : List Rec) :
    ((∃ p ∈ l, ∃ e, fetchT p.Ensembl_transcr = Except.error e) →
      ∃ e, get_hgnctranscr fetchT l = Except.error e) ∧
    ((∃ p ∈ l, ∃ e, fetchP p.Ensembl_protein = Except.error e) →
      ∃ e, get_uniprotids fetchP l = Except.error e) := by
  constructor
  · intro h
    induction l with
    | nil => simp at h
    | cons p rest ih =>
      obtain ⟨q, hq, e, he⟩ := h
      cases hf : fetchT p.Ensembl_transcr with
      | error e' => exact ⟨e', by simp only [get_hgnctranscr, hf]; rfl⟩
      | ok txrefs =>
        rcases List.mem_cons.mp hq with hqp | hqr
        · rw [hqp] at he; rw [he] at hf; exact absurd hf (by simp)
        · obtain ⟨e', he'⟩ := ih ⟨q, hqr, e, he⟩
          exact ⟨e', by simp only [get_hgnctranscr, hf, he']; rfl⟩
  · intro h
    induction l with
    | nil => simp at h
    | cons p rest ih =>
      obtain ⟨q, hq, e, he⟩ := h
      cases hf : fetchP p.Ensembl_protein with
      | error e' => exact ⟨e', by simp only [get_uniprotids, hf]; rfl⟩
      | ok pxrefs =>
        rcases List.mem_cons.mp hq with hqp | hqr
        · rw [hqp] at he; rw [he] at hf; exact absurd hf (by simp)
        · obtain ⟨e', he'⟩ := ih ⟨q, hqr, e, he⟩
          exact ⟨e', by simp only [get_uniprotids, hf, he']; rfl⟩

/-- Witness for the amended claim C3 at a concrete record set and failing
fetches. -/
theorem claim3_witness :
    (∃ e, get_hgnctranscr failFetchT recs3 = Except.error e) ∧
    (∃ e, get_uniprotids failFetchP recs3 = Except.error e) := by
  constructor
  · exact (claim3_amended_error_propagates failFetchT failFetchP recs3).1
      ⟨mkRec "ENST3" "ENSP3", by decide, Err.remoteFetch 500, rfl⟩
  · exact (claim3_amended_error_propagates failFetchT failFetchP recs3).2
      ⟨mkRec "ENST3" "ENSP3", by decide, Err.remoteFetch 500, rfl⟩

/-! ### Claim C2 — deduplication invariant -/

theorem firstSeenDedup_nil : firstSeenDedup [] = [] := by
  rw [firstSeenDedup]

theorem firstSeenDedup_cons (p : Rec) (rest : List Rec) :
    firstSeenDedup (p :: rest) = p :: firstSeenDedup (rest.filter fun q => q ≠ p) := by
  rw [firstSeenDedup]

/-- Members of `firstSeenDedup l` come from `l`. -/
theorem mem_firstSeenDedup (x : Rec) :
    ∀ l : List Rec, x ∈ firstSeenDedup l → x ∈ l := by
  intro l
  induction l using firstSeenDedup.induct with
  | case1 =>
    intro h
    rw [firstSeenDedup_nil] at h
    exact absurd h (List.not_mem_nil x)
  | case2 p rest ih =>
    intro h
    rw [firstSeenDedup_cons] at h
    rcases List.mem_cons.mp h with hxp | hxr
    · rw [hxp]; exact List.mem_cons_self _ _
    · exact List.mem_cons_of_mem _ (List.mem_filter.mp (ih hxr)).1

/-- The function `firstSeenDedup` produces a duplicate-free list. -/
theorem nodup_firstSeenDedup : ∀ l : List Rec, (firstSeenDedup l).Nodup := by
  intro l
  induction l using firstSeenDedup.induct with
  | case1 => rw [firstSeenDedup_nil]; exact List.nodup_nil
  | case2 p rest ih =>
    rw [firstSeenDedup_cons]
    refine List.nodup_cons.mpr ⟨?_, ih⟩
    intro hmem
    have hf := (List.mem_filter.mp (mem_firstSeenDedup p _ hmem)).2
    simp at hf

/-- The deduplication loop of `_get_transcripts` computes first-seen-order
deduplication: generalized over the accumulator. -/
theorem dedupLoop_eq_firstSeen :
    ∀ l acc : List Rec,
      dedupLoop acc l = acc ++ firstSeenDedup (l.filter fun x => x ∉ acc) := by
  intro l
  induction l with
  | nil => intro acc; simp [dedupLoop, firstSeenDedup_nil]
  | cons p rest ih =>
    intro acc
    by_cases hp : p ∈ acc
    · have h1 : dedupLoop acc (p :: rest) = dedupLoop acc rest := by
        simp [dedupLoop, hp]
      have h2 : (p :: rest).filter (fun x => decide (x ∉ acc)) =
          rest.filter (fun x => decide (x ∉ acc)) := by
        simp [List.filter_cons, hp]
      rw [h1, h2]
      exact ih acc
    · have h1 : dedupLoop acc (p :: rest) = dedupLoop (acc ++ [p]) rest := by
        simp [dedupLoop, hp]
      have hdec : ∀ x : Rec,
          (decide (x ∉ acc ++ [p])) = (decide (x ≠ p) && decide (x ∉ acc)) := by
        intro x
        by_cases hx1 : x ∈ acc <;> by_cases hx2 : x = p <;>
          simp [List.mem_append, hx1, hx2]
      have h2 : (p :: rest).filter (fun x => decide (x ∉ acc)) =
          p :: rest.filter (fun x => decide (x ∉ acc)) := by
        simp [List.filter_cons, hp]
      rw [h1, ih (acc ++ [p]), h2, firstSeenDedup_cons, List.filter_filter,
        List.filter_congr (fun x _ => hdec x)]
      simp

/-- Records of `deflist` carry only the (transcript, protein) pair. -/
theorem defRecs_shape (strand : Int) (cdslist : List CDS) (x : Rec)
    (h : x ∈ defRecs strand cdslist) :
    x = mkRec x.Ensembl_transcr x.Ensembl_protein := by
  unfold defRecs at h
  obtain ⟨cds, _, hx⟩ := List.mem_filterMap.mp h
  by_cases hc : cds.strand = strand
  · rw [if_pos hc] at hx
    have := Option.some.inj hx
    rw [← this]
    rfl
  · rw [if_neg hc] at hx
    exact absurd hx (by simp)

/-- Claim C2: deduplication invariant.  For every input list of
coding-sequence features, `_get_transcripts` computes exactly the
first-seen-order deduplication of the filtered pair list (so the surviving
records appear in first-seen order), and the result contains no two records
with an identical (transcript identifier, protein identifier) pair. -/
theorem claim2_deduplication (strand : Int) (cdslist : List CDS) :
    get_transcripts strand cdslist = firstSeenDedup (defRecs strand cdslist) ∧
    (get_transcripts strand cdslist).Pairwise
      (fun p q => ¬(p.Ensembl_transcr = q.Ensembl_transcr ∧
        p.Ensembl_protein = q.Ensembl_protein)) := by
  have hfilt : (defRecs strand cdslist).filter (fun x => decide (x ∉ ([] : List Rec))) =
      defRecs strand cdslist := by
    apply List.filter_eq_self.mpr
    intro a _
    simp
  have heq : get_transcripts strand cdslist = firstSeenDedup (defRecs strand cdslist) := by
    unfold get_transcripts
    rw [dedupLoop_eq_firstSeen, hfilt]
    simp
  refine ⟨heq, ?_⟩
  rw [heq]
  refine List.Pairwise.imp_of_mem ?_ (nodup_firstSeenDedup (defRecs strand cdslist))
  intro a b ha hb hne hpair
  have hsa := defRecs_shape strand cdslist a (mem_firstSeenDedup a _ ha)
  have hsb := defRecs_shape strand cdslist b (mem_firstSeenDedup b _ hb)
  exact hne (by rw [hsa, hsb, hpair.1, hpair.2])

/-! ### Claim C1 — canonical flagging

The flagging loop of `_get_canon` marks EVERY record whose transcript id
equals the canonical one.  Pair deduplication allows two records to share a
transcript id (with different protein ids), and then both are flagged, so the
claim sentence "exactly one record" fails in general; it holds when transcript ids
are pairwise distinct across the record set. -/

/-- APPRIS payload for the C1 counterexample: exactly one principal isoform. -/
def appris1 : List Isoform :=
  [{ annot := some "Principal Isoform", transcript_id := some "T1" }]

/-- Record set for the C1 counterexample: two records sharing transcript `T1`
(with distinct protein ids), as pair deduplication permits. -/
def recs1 : List Rec := [mkRec "T1" "P1", mkRec "T1" "P2"]

/-- Counterexample to claim C1 as stated: the authority reports exactly one
principal isoform `T1`, which matches the transcript id of a record of the
set, yet after `_get_canon` TWO records carry `Canon = "Yes"` (not exactly
one). -/
theorem claim1_counterexample :
    (canonList appris1).dedup = ["T1"] ∧
    mkRec "T1" "P1" ∈ recs1 ∧ (mkRec "T1" "P1").Ensembl_transcr = "T1" ∧
    get_canon appris1 recs1 =
      Except.ok ("T1",
        [{ mkRec "T1" "P1" with Canon := some "Yes" },
         { mkRec "T1" "P2" with Canon := some "Yes" }]) ∧
    (([{ mkRec "T1" "P1" with Canon := some "Yes" },
        { mkRec "T1" "P2" with Canon := some "Yes" }] : List Rec).countP
        fun p => p.Canon = some "Yes") = 2 := by
  decide

/-- Claim C1 amended: canonical flagging marks every record whose transcript
id equals the unique principal isoform; hence, for every record set whose
records carry no prior canonical flag and whose transcript ids are pairwise
distinct, if the unique principal isoform matches the transcript id of a
record of the set, then after `_get_canon` exactly one record carries
`Canon = "Yes"` and the canonical flag of every other record remains absent. -/
theorem claim1_amended_unique_transcripts
    (appris : List Isoform) (l : List Rec) (t : String)
    (hres : canonResolve appris = Except.ok t)
    (hnone : ∀ p ∈ l, p.Canon = none)
    (hnd : (l.map Rec.Ensembl_transcr).Nodup)
    (hmem : ∃ p ∈ l, p.Ensembl_transcr = t) :
    get_canon appris l = Except.ok (t, flagCanon t l) ∧
    ((flagCanon t l).countP fun p => p.Canon = some "Yes") = 1 ∧
    ∀ p ∈ flagCanon t l, p.Ensembl_transcr ≠ t → p.Canon = none := by
  refine ⟨?_, ?_, ?_⟩
  · simp only [get_canon, hres]
    rfl
  · have h1 : ((flagCanon t l).countP fun p => p.Canon = some "Yes") =
        l.countP fun x => x.Ensembl_transcr = t := by
      unfold flagCanon
      rw [List.countP_map]
      apply List.countP_congr
      intro x hx
      have hc := hnone x hx
      by_cases ht : x.Ensembl_transcr = t <;> simp [Function.comp, ht, hc]
    have h2 : (l.countP fun x => x.Ensembl_transcr = t) =
        (l.map Rec.Ensembl_transcr).count t := by
      rw [List.count_eq_countP, List.countP_map]
      apply List.countP_congr
      intro x hx
      simp [Function.comp]
    have h3 : (l.map Rec.Ensembl_transcr).count t = 1 := by
      apply List.count_eq_one_of_mem hnd
      obtain ⟨p, hp, hpt⟩ := hmem
      exact hpt ▸ List.mem_map_of_mem Rec.Ensembl_transcr hp
    rw [h1, h2, h3]
  · intro r hr hrt
    obtain ⟨x, hx, hfx⟩ := List.mem_map.mp hr
    by_cases ht : x.Ensembl_transcr = t
    · exfalso
      apply hrt
      rw [← hfx]
      simp [ht]
    · rw [← hfx]
      simp only [if_neg ht]
      exact hnone x hx

/-- APPRIS payload for the C1 witness. -/
def appris1w : List Isoform :=
  [{ annot := some "Principal Isoform", transcript_id := some "T9" },
   { annot := some "Minor Isoform", transcript_id := some "T8" }]

/-- Record set for the C1 witness: distinct transcript ids, no prior flags. -/
def recs1w : List Rec := [mkRec "T9" "P1", mkRec "T8" "P2"]

/-- Witness for the amended claim C1 at a concrete record set and payload. -/
theorem claim1_witness :
    canonResolve appris1w = Except.ok "T9" ∧
    (∀ p ∈ recs1w, p.Canon = none) ∧
    (recs1w.map Rec.Ensembl_transcr).Nodup ∧
    (∃ p ∈ recs1w, p.Ensembl_transcr = "T9") ∧
    (get_canon appris1w recs1w = Except.ok ("T9", flagCanon "T9" recs1w) ∧
      ((flagCanon "T9" recs1w).countP fun p => p.Canon = some "Yes") = 1 ∧
      ∀ p ∈ flagCanon "T9" recs1w, p.Ensembl_transcr ≠ "T9" → p.Canon = none) :=
  ⟨by decide, by decide, by decide, by decide,
   claim1_amended_unique_transcripts appris1w recs1w "T9"
     (by decide) (by decide) (by decide) (by decide)⟩

/-! ### Shared facts about `_get_uniprotdupl` (claims C4 and C6) -/

theorem except_bind_error {ε α β : Type} (e : ε) (f : α → Except ε β) :
    (Except.error e >>= f) = Except.error e := rfl

theorem except_bind_ok {ε α β : Type} (a : α) (f : α → Except ε β) :
    (Except.ok a >>= f) = f a := rfl

/-- The number of records of `l` whose accession is `a`. -/
def countAcc (l : List Rec) (a : String) : Nat :=
  l.countP fun p => p.UniProt_accession = some a

/-- The loop `rewriteOne` raises (`AttributeError` on `None`) as soon as some record
carrying the duplicate accession has no sub-entry in the authoritative
record. -/
theorem rewriteOne_error (auth : String → String → Option Molecule) (a : String) :
    ∀ l : List Rec,
      (∃ p ∈ l, p.UniProt_accession = some a ∧ auth a p.Ensembl_transcr = none) →
      rewriteOne auth a l = Except.error Err.attrError := by
  intro l
  induction l with
  | nil => intro h; simp at h
  | cons p rest ih =>
    intro h
    obtain ⟨q, hq, hqa, hqn⟩ := h
    simp only [rewriteOne]
    rcases List.mem_cons.mp hq with hqp | hqr
    · rw [hqp] at hqa hqn
      rw [if_pos hqa, hqn]
    · by_cases hpa : p.UniProt_accession = some a
      · rw [if_pos hpa]
        cases hm : auth a p.Ensembl_transcr with
        | none => rfl
        | some m =>
          simp only [ih ⟨q, hqr, hqa, hqn⟩, except_bind_error]
      · rw [if_neg hpa]
        simp only [ih ⟨q, hqr, hqa, hqn⟩, except_bind_error]

/-- The only error `rewriteOne` can produce is `attrError`. -/
theorem rewriteOne_error_attr (auth : String → String → Option Molecule) (d : String) :
    ∀ (l : List Rec) (e : Err),
      rewriteOne auth d l = Except.error e → e = Err.attrError := by
  intro l
  induction l with
  | nil => intro e h; simp [rewriteOne] at h
  | cons p rest ih =>
    intro e h
    simp only [rewriteOne] at h
    by_cases hpa : p.UniProt_accession = some d
    · rw [if_pos hpa] at h
      cases hm : auth d p.Ensembl_transcr with
      | none =>
        rw [hm] at h
        injection h with h2
        exact h2.symm
      | some m =>
        rw [hm] at h
        cases hr : rewriteOne auth d rest with
        | error e' =>
          simp only [hr, except_bind_error] at h
          injection h with h2
          rw [← h2]
          exact ih e' hr
        | ok l' =>
          simp only [hr, except_bind_ok] at h
          exact absurd h (by simp)
    · rw [if_neg hpa] at h
      cases hr : rewriteOne auth d rest with
      | error e' =>
        simp only [hr, except_bind_error] at h
        injection h with h2
        rw [← h2]
        exact ih e' hr
      | ok l' =>
        simp only [hr, except_bind_ok] at h
        exact absurd h (by simp)

/-- A successful `rewriteOne` for a duplicate `d` keeps every record whose
accession is a different value `a` untouched (still a member of the result). -/
theorem rewriteOne_preserve (auth : String → String → Option Molecule)
    (d a : String) (had : a ≠ d) :
    ∀ l l' : List Rec, rewriteOne auth d l = Except.ok l' →
      ∀ p ∈ l, p.UniProt_accession = some a → p ∈ l' := by
  intro l
  induction l with
  | nil => intro l' h p hp; simp at hp
  | cons q rest ih =>
    intro l' h p hp hpa
    simp only [rewriteOne] at h
    by_cases hqa : q.UniProt_accession = some d
    · rw [if_pos hqa] at h
      cases hm : auth d q.Ensembl_transcr with
      | none =>
        rw [hm] at h
        exact absurd h (by simp)
      | some m =>
        rw [hm] at h
        cases hr : rewriteOne auth d rest with
        | error e =>
          simp only [hr, except_bind_error] at h
          exact absurd h (by simp)
        | ok rest' =>
          simp only [hr, except_bind_ok] at h
          have hl' : l' = { q with UniProt_accession := m.id } :: rest' :=
            (Except.ok.inj h).symm
          rcases List.mem_cons.mp hp with hpq | hpr
          · rw [hpq] at hpa
            rw [hpa] at hqa
            exact absurd (Option.some.inj hqa) had
          · rw [hl']
            exact List.mem_cons_of_mem _ (ih rest' hr p hpr hpa)
    · rw [if_neg hqa] at h
      cases hr : rewriteOne auth d rest with
      | error e =>
        simp only [hr, except_bind_error] at h
        exact absurd h (by simp)
      | ok rest' =>
        simp only [hr, except_bind_ok] at h
        have hl' : l' = q :: rest' := (Except.ok.inj h).symm
        rcases List.mem_cons.mp hp with hpq | hpr
        · rw [hl', hpq]
          exact List.mem_cons_self _ _
        · rw [hl']
          exact List.mem_cons_of_mem _ (ih rest' hr p hpr hpa)

/-- The duplicate-processing loop aborts with `attrError` whenever one of the
duplicates to process has a record with no sub-entry in the authority. -/
theorem processDups_error (auth : String → String → Option Molecule) (a : String) :
    ∀ (ds : List String) (l : List Rec), a ∈ ds →
      (∃ p ∈ l, p.UniProt_accession = some a ∧ auth a p.Ensembl_transcr = none) →
      processDups auth ds l = Except.error Err.attrError := by
  intro ds
  induction ds with
  | nil => intro l ha hw; simp at ha
  | cons d ds' ih =>
    intro l ha hw
    simp only [processDups]
    by_cases hda : d = a
    · rw [hda, rewriteOne_error auth a l hw, except_bind_error]
    · cases hr : rewriteOne auth d l with
      | error e =>
        rw [except_bind_error, rewriteOne_error_attr auth d l e hr]
      | ok l' =>
        rw [except_bind_ok]
        have ha' : a ∈ ds' := by
          rcases List.mem_cons.mp ha with h1 | h2
          · exact absurd h1.symm hda
          · exact h2
        obtain ⟨p, hp, hpa, hpn⟩ := hw
        have hane : a ≠ d := fun hh => hda hh.symm
        exact ih l' ha'
          ⟨p, rewriteOne_preserve auth d a hane l l' hr p hp hpa, hpa, hpn⟩

/-- Invariant of the duplicate scan: it succeeds when every record carries an
accession, and the result contains exactly the accessions that are already
flagged, or already seen and occurring again, or occurring at least twice. -/
theorem dupScan_spec :
    ∀ (l : List Rec) (seen dups : List String),
      (∀ p ∈ l, (p.UniProt_accession).isSome) →
      ∃ ds, dupScan l seen dups = Except.ok ds ∧
        (∀ b : String, b ∈ ds ↔
          b ∈ dups ∨ (b ∈ seen ∧ 1 ≤ countAcc l b) ∨ 2 ≤ countAcc l b) ∧
        (dups.Nodup → ds.Nodup) := by
  intro l
  induction l with
  | nil =>
    intro seen dups hall
    refine ⟨dups, rfl, ?_, fun h => h⟩
    intro b
    simp [countAcc]
  | cons p rest ih =>
    intro seen dups hall
    match hacc : p.UniProt_accession with
    | none =>
      exact absurd (hall p (List.mem_cons_self p rest)) (by rw [hacc]; simp)
    | some ac =>
      have hall' : ∀ q ∈ rest, (q.UniProt_accession).isSome :=
        fun q hq => hall q (List.mem_cons_of_mem p hq)
      have hcount : ∀ b, countAcc (p :: rest) b =
          countAcc rest b + if b = ac then 1 else 0 := by
        intro b
        unfold countAcc
        rw [List.countP_cons]
        congr 1
        rw [hacc]
        by_cases hb : b = ac
        · simp [hb]
        · have hne : ¬(some ac = some b) := fun hh => hb (Option.some.inj hh).symm
          simp [hne, hb]
      by_cases hs : ac ∈ seen
      · have hstep : dupScan (p :: rest) seen dups =
            dupScan rest seen (if ac ∈ dups then dups else dups ++ [ac]) := by
          simp only [dupScan, hacc]
          rw [if_pos hs]
        obtain ⟨ds, hds, hiff, hnd⟩ :=
          ih seen (if ac ∈ dups then dups else dups ++ [ac]) hall'
        have hmem' : ac ∈ (if ac ∈ dups then dups else dups ++ [ac]) := by
          by_cases hd : ac ∈ dups
          · rw [if_pos hd]; exact hd
          · rw [if_neg hd]; simp
        refine ⟨ds, by rw [hstep]; exact hds, ?_, ?_⟩
        · intro b
          rw [hiff b, hcount b]
          by_cases hb : b = ac
          · rw [if_pos hb]
            constructor
            · intro _
              exact Or.inr (Or.inl ⟨hb ▸ hs, by omega⟩)
            · intro _
              exact Or.inl (hb ▸ hmem')
          · have hmemiff : b ∈ (if ac ∈ dups then dups else dups ++ [ac]) ↔
                b ∈ dups := by
              by_cases hd : ac ∈ dups
              · rw [if_pos hd]
              · rw [if_neg hd]
                simp [List.mem_append, hb]
            rw [if_neg hb, hmemiff]
            simp
        · intro hdn
          apply hnd
          by_cases hd : ac ∈ dups
          · rw [if_pos hd]; exact hdn
          · rw [if_neg hd]
            simp [List.nodup_append, hdn, hd]
      · have hstep : dupScan (p :: rest) seen dups =
            dupScan rest (seen ++ [ac]) dups := by
          simp only [dupScan, hacc]
          rw [if_neg hs]
        obtain ⟨ds, hds, hiff, hnd⟩ := ih (seen ++ [ac]) dups hall'
        refine ⟨ds, by rw [hstep]; exact hds, ?_, hnd⟩
        intro b
        rw [hiff b, hcount b]
        by_cases hb : b = ac
        · rw [if_pos hb]
          constructor
          · rintro (h1 | ⟨_, h2⟩ | h3)
            · exact Or.inl h1
            · exact Or.inr (Or.inr (by omega))
            · exact Or.inr (Or.inr (by omega))
          · rintro (h1 | ⟨hbs, _⟩ | h3)
            · exact Or.inl h1
            · exact absurd (hb ▸ hbs) hs
            · exact Or.inr (Or.inl ⟨by simp [hb], by omega⟩)
        · have hseeniff : b ∈ seen ++ [ac] ↔ b ∈ seen := by
            simp [List.mem_append, hb]
          rw [if_neg hb, hseeniff]
          simp

/-- A duplicate-free list whose members all equal `a`, with `a` a member, is
the singleton `[a]`. -/
theorem nodup_all_eq_singleton {ds : List String} {a : String}
    (hnd : ds.Nodup) (hmem : a ∈ ds) (hall : ∀ b ∈ ds, b = a) : ds = [a] := by
  cases ds with
  | nil => exact absurd hmem (List.not_mem_nil a)
  | cons h t =>
    have hha : h = a := hall h (List.mem_cons_self h t)
    subst hha
    cases t with
    | nil => rfl
    | cons x t' =>
      have hx : x = h := hall x (by simp)
      have hnm : h ∉ x :: t' := (List.nodup_cons.mp hnd).1
      have hm2 : h ∈ x :: t' := by
        rw [hx]
        exact List.mem_cons_self h t'
      exact absurd hm2 hnm

/-- What one pass of `rewriteOne` does to each record, as a function. -/
def rewriteFn (auth : String → String → Option Molecule) (a : String) (p : Rec) : Rec :=
  if p.UniProt_accession = some a then
    match auth a p.Ensembl_transcr with
    | some molecule => { p with UniProt_accession := molecule.id }
    | none => p
  else p

/-- When every record carrying the duplicate accession has a sub-entry,
`rewriteOne` succeeds and acts as `rewriteFn` on every record. -/
theorem rewriteOne_ok_map (auth : String → String → Option Molecule) (a : String) :
    ∀ l : List Rec,
      (∀ p ∈ l, p.UniProt_accession = some a → (auth a p.Ensembl_transcr).isSome) →
      rewriteOne auth a l = Except.ok (l.map (rewriteFn auth a)) := by
  intro l
  induction l with
  | nil => intro _; rfl
  | cons p rest ih =>
    intro h
    have hrest := fun q hq => h q (List.mem_cons_of_mem p hq)
    simp only [rewriteOne]
    by_cases hpa : p.UniProt_accession = some a
    · rw [if_pos hpa]
      cases hm : auth a p.Ensembl_transcr with
      | none =>
        exact absurd (h p (List.mem_cons_self p rest) hpa) (by rw [hm]; simp)
      | some m =>
        simp only [ih hrest, except_bind_ok]
        simp [List.map_cons, rewriteFn, hpa, hm]
    · rw [if_neg hpa]
      simp only [ih hrest, except_bind_ok]
      simp [List.map_cons, rewriteFn, hpa]

/-! ### Claim C4 — missing sub-entry during reconciliation

When `uniprotxml.find(".//dbReference[@id=ENST]/molecule")` returns `None`,
the next line `molecule.get(id)` raises `AttributeError`; there is no
`try`/`except` around it, so the whole run aborts.  No per-record
`DisambiguationNotFound` is reported and processing does not continue. -/

/-- Record set for the C4 counterexample: two records sharing an accession. -/
def recs4 : List Rec :=
  [{ mkRec "T1" "P1" with UniProt_accession := some "P99999" },
   { mkRec "T2" "P2" with UniProt_accession := some "P99999" }]

/-- Authority for the C4 counterexample: no sub-entry for any transcript. -/
def auth4 : String → String → Option Molecule := fun _ _ => none

/-- Counterexample to claim C4 as stated: the accession `P99999` is
duplicated and the authoritative record lacks a sub-entry for transcript
`T1`, and `_get_uniprotdupl` aborts the whole run (`AttributeError` on
`None`) instead of reporting a per-record error and continuing. -/
theorem claim4_counterexample :
    auth4 "P99999" "T1" = none ∧
    get_uniprotdupl auth4 recs4 = Except.error Err.attrError := by
  decide

/-- Claim C4 amended: for every record whose accession is flagged as a
duplicate, if the authoritative record lacks a sub-entry keyed by the transcript
identifier of the record, `_get_uniprotdupl` aborts the whole run with
an `AttributeError` (the unguarded `molecule.get(id)` on `None`); the accession of that
record is never rewritten because no record set is returned at
all. -/
theorem claim4_amended_missing_subentry_aborts
    (auth : String → String → Option Molecule) (l : List Rec) (a : String) (r : Rec)
    (hall : ∀ p ∈ l, (p.UniProt_accession).isSome)
    (hr : r ∈ l) (hacc : r.UniProt_accession = some a)
    (hdup : 2 ≤ countAcc l a)
    (hnone : auth a r.Ensembl_transcr = none) :
    get_uniprotdupl auth l = Except.error Err.attrError := by
  obtain ⟨ds, hds, hiff, _⟩ := dupScan_spec l [] [] hall
  have hads : a ∈ ds := (hiff a).mpr (Or.inr (Or.inr hdup))
  unfold get_uniprotdupl
  rw [hds, except_bind_ok]
  exact processDups_error auth a ds l hads ⟨r, hr, hacc, hnone⟩

/-- Record set for the C4 witness. -/
def recs4w : List Rec :=
  [{ mkRec "T1" "P1" with UniProt_accession := some "P88888" },
   { mkRec "T2" "P2" with UniProt_accession := some "P88888" }]

/-- Authority for the C4 witness: a sub-entry for `T1` but none for `T2`. -/
def auth4w : String → String → Option Molecule := fun a t =>
  if a = "P88888" ∧ t = "T1" then some { id := some "P88888-1" } else none

/-- Witness for the amended claim C4 at a concrete record set and authority. -/
theorem claim4_witness :
    2 ≤ countAcc recs4w "P88888" ∧
    auth4w "P88888" "T2" = none ∧
    get_uniprotdupl auth4w recs4w = Except.error Err.attrError :=
  ⟨by decide, by decide,
   claim4_amended_missing_subentry_aborts auth4w recs4w "P88888"
     { mkRec "T2" "P2" with UniProt_accession := some "P88888" }
     (by decide) (by decide) (by decide) (by decide) (by decide)⟩

/-! ### Claim C6 — reconciliation disambiguates duplicate accessions -/

theorem get_map_rec (f : Rec → Rec) (l : List Rec) (i : Nat)
    (h : i < l.length) (h2 : i < (l.map f).length) :
    (l.map f).get ⟨i, h2⟩ = f (l.get ⟨i, h⟩) := by
  simp [List.get_eq_getElem, List.getElem_map]

/-- Claim C6 amended: when every record carries an accession, the accession
`a` shared by the records at positions `i` and `j` is the only value
occurring on two or more records, and the authoritative record supplies a
sub-entry for every record carrying `a`, with the sub-entries for records
`i` and `j` transcript identifiers carrying distinct identifiers `u` and
`v`, then `_get_uniprotdupl` succeeds and the two records' accession fields
differ afterwards.  (Without the only-duplicate restriction the claim fails:
see the counterexample, where the disambiguated accession of a record collides
with another duplicated accession and is rewritten a second time.) -/
theorem claim6_amended_single_duplicate
    (auth : String → String → Option Molecule) (l : List Rec) (a u v : String)
    (m₁ m₂ : Molecule) (i j : Nat) (hi : i < l.length) (hj : j < l.length)
    (hall : ∀ p ∈ l, (p.UniProt_accession).isSome)
    (honly : ∀ b ∈ l.filterMap (fun p => p.UniProt_accession),
      2 ≤ countAcc l b → b = a)
    (hcnt : 2 ≤ countAcc l a)
    (hsome : ∀ p ∈ l, p.UniProt_accession = some a →
      (auth a p.Ensembl_transcr).isSome)
    (hacci : (l.get ⟨i, hi⟩).UniProt_accession = some a)
    (haccj : (l.get ⟨j, hj⟩).UniProt_accession = some a)
    (hmi : auth a (l.get ⟨i, hi⟩).Ensembl_transcr = some m₁)
    (hmj : auth a (l.get ⟨j, hj⟩).Ensembl_transcr = some m₂)
    (hu : m₁.id = some u) (hv : m₂.id = some v) (huv : u ≠ v) :
    get_uniprotdupl auth l = Except.ok (l.map (rewriteFn auth a)) ∧
    ((l.map (rewriteFn auth a)).get
        ⟨i, by rw [List.length_map]; exact hi⟩).UniProt_accession ≠
      ((l.map (rewriteFn auth a)).get
        ⟨j, by rw [List.length_map]; exact hj⟩).UniProt_accession := by
  obtain ⟨ds, hds, hiff, hnd⟩ := dupScan_spec l [] [] hall
  have hds_mem : ∀ b, b ∈ ds ↔ 2 ≤ countAcc l b := by
    intro b
    rw [hiff b]
    simp
  have hads : a ∈ ds := (hds_mem a).mpr hcnt
  have hall_eq : ∀ b ∈ ds, b = a := by
    intro b hb
    have hcb := (hds_mem b).mp hb
    refine honly b ?_ hcb
    have hpos : 0 < countAcc l b := by omega
    obtain ⟨p, hp, hpb⟩ := List.countP_pos_iff.mp hpos
    exact List.mem_filterMap.mpr ⟨p, hp, of_decide_eq_true hpb⟩
  have hsingle : ds = [a] := nodup_all_eq_singleton (hnd List.nodup_nil) hads hall_eq
  have hrw := rewriteOne_ok_map auth a l hsome
  constructor
  · unfold get_uniprotdupl
    rw [hds, except_bind_ok, hsingle]
    simp only [processDups, hrw, except_bind_ok]
  · rw [get_map_rec (rewriteFn auth a) l i hi, get_map_rec (rewriteFn auth a) l j hj]
    simp only [List.get_eq_getElem] at hacci haccj hmi hmj
    have h1 : (rewriteFn auth a (l.get ⟨i, hi⟩)).UniProt_accession = some u := by
      simp [rewriteFn, hacci, hmi, hu]
    have h2 : (rewriteFn auth a (l.get ⟨j, hj⟩)).UniProt_accession = some v := by
      simp [rewriteFn, haccj, hmj, hv]
    rw [h1, h2]
    intro hh
    exact huv (Option.some.inj hh)

/-- Record set for the C6 counterexample: records 1 and 2 share accession
`A`; records 3 and 4 share accession `B` (a second duplicate). -/
def recs6 : List Rec :=
  [{ mkRec "T1" "P1" with UniProt_accession := some "A" },
   { mkRec "T2" "P2" with UniProt_accession := some "A" },
   { mkRec "T3" "P3" with UniProt_accession := some "B" },
   { mkRec "T4" "P4" with UniProt_accession := some "B" }]

/-- Authority for the C6 counterexample.  The entry for `A` supplies DISTINCT
sub-entry identifiers for `T1` and `T2` (`B` and `A-2`); the entry for `B`
supplies `A-2` for `T1`. -/
def auth6 : String → String → Option Molecule := fun ac enst =>
  if ac = "A" then
    if enst = "T1" then some { id := some "B" }
    else if enst = "T2" then some { id := some "A-2" }
    else none
  else if ac = "B" then
    if enst = "T1" then some { id := some "A-2" }
    else if enst = "T3" then some { id := some "B-1" }
    else if enst = "T4" then some { id := some "B-2" }
    else none
  else none

/-- The record set after `_get_uniprotdupl` on the C6 counterexample input. -/
def res6 : List Rec :=
  [{ mkRec "T1" "P1" with UniProt_accession := some "A-2" },
   { mkRec "T2" "P2" with UniProt_accession := some "A-2" },
   { mkRec "T3" "P3" with UniProt_accession := some "B-1" },
   { mkRec "T4" "P4" with UniProt_accession := some "B-2" }]

/-- Counterexample to claim C6 as stated: records 1 and 2 share accession
`A` and the authoritative record for `A` supplies distinct sub-entry
identifiers for their transcript identifiers (`B` for `T1`, `A-2` for
`T2`), yet after `_get_uniprotdupl` runs both records carry the SAME
accession `A-2`: the rewritten accession `B` of record 1 collides with the other
duplicated accession and is rewritten a second time while that of record 2 is not.
(The embedding processes the duplicate set in first-detection order; Python
iterates `list(duplicates)` over a hash set, whose order is unspecified, so
this trace is one admissible execution of the source.) -/
theorem claim6_counterexample :
    auth6 "A" "T1" = some { id := some "B" } ∧
    auth6 "A" "T2" = some { id := some "A-2" } ∧
    (recs6.get ⟨0, by decide⟩).UniProt_accession = some "A" ∧
    (recs6.get ⟨1, by decide⟩).UniProt_accession = some "A" ∧
    get_uniprotdupl auth6 recs6 = Except.ok res6 ∧
    (res6.get ⟨0, by decide⟩).UniProt_accession =
      (res6.get ⟨1, by decide⟩).UniProt_accession := by
  decide

/-- Record set for the C6 witness: a single duplicated accession. -/
def recs6w : List Rec :=
  [{ mkRec "T1" "P1" with UniProt_accession := some "P77777" },
   { mkRec "T2" "P2" with UniProt_accession := some "P77777" }]

/-- Authority for the C6 witness: distinct sub-entries for `T1` and `T2`. -/
def auth6w : String → String → Option Molecule := fun ac t =>
  if ac = "P77777" then
    if t = "T1" then some { id := some "P77777-1" }
    else if t = "T2" then some { id := some "P77777-2" }
    else none
  else none

/-- Witness for the amended claim C6 at a concrete record set and authority. -/
theorem claim6_witness :
    (∀ p ∈ recs6w, (p.UniProt_accession).isSome) ∧
    2 ≤ countAcc recs6w "P77777" ∧
    (get_uniprotdupl auth6w recs6w =
        Except.ok (recs6w.map (rewriteFn auth6w "P77777")) ∧
      ((recs6w.map (rewriteFn auth6w "P77777")).get
          ⟨0, by decide⟩).UniProt_accession ≠
        ((recs6w.map (rewriteFn auth6w "P77777")).get
          ⟨1, by decide⟩).UniProt_accession) :=
  ⟨by decide, by decide,
   claim6_amended_single_duplicate auth6w recs6w "P77777" "P77777-1" "P77777-2"
     { id := some "P77777-1" } { id := some "P77777-2" } 0 1
     (by decide) (by decide) (by decide) (by decide) (by decide) (by decide)
     (by decide) (by decide) (by decide) (by decide) (by decide) (by decide)
     (by decide)⟩

end Anatomizer
